import Mathlib

/-
Verification of the mdo-elt HubSpot-to-BigQuery incremental sync and cleanup
pipeline.  The definitions below are shallow embeddings of the JavaScript
source (src/index.js, src/cleanup.js and the repository variants); theorems
settle the frozen claims about the natural-language specification.
-/

namespace MdoElt

/- ===================================================================
   Schema Mapper (src/index.js lines 15-19, src/unnamed/part_000 16-24)

   const sanitise = n =>
     (/^[^a-z]/i.test(n = n.toLowerCase().replace(/[^a-z0-9_]/g, _)) ? p_+n : n);
   const hub2bq = t =>
     ({string:STRING, number:FLOAT, datetime:TIMESTAMP, date:DATE,
       bool:BOOLEAN}[t] || STRING);

   Characters are handled through their code points.  The JS toLowerCase is
   modelled on the ASCII letter range: every character it could change
   outside that range is not in [a-z0-9_] either before or after lowering,
   so the replacement step sends it to an underscore in both readings.
   =================================================================== -/

/-- Code point test for the character class [a-z0-9_] kept by the replace
step of sanitise. -/
def isKeepChar (c : Char) : Bool :=
  (97 ≤ c.toNat && c.toNat ≤ 122) || (48 ≤ c.toNat && c.toNat ≤ 57) || (c.toNat == 95)

/-- Code point test for a lowercase ASCII letter, the class [a-z] used by
the leading-character test of sanitise. -/
def isLowerAlpha (c : Char) : Bool :=
  97 ≤ c.toNat && c.toNat ≤ 122

/-- The toLowerCase step of sanitise, on one character (ASCII range). -/
def lowerChar (c : Char) : Char :=
  if 65 ≤ c.toNat && c.toNat ≤ 90 then Char.ofNat (c.toNat + 32) else c

/-- The replace step of sanitise, on one character: anything outside
[a-z0-9_] becomes an underscore. -/
def replaceChar (c : Char) : Char :=
  if isKeepChar c then c else '_'

/-- The sanitise helper of the Schema Mapper, on a character list:
lowercase, replace every character outside [a-z0-9_] with an underscore,
and prepend the two characters p_ when the result does not start with a
lowercase letter.  The regex test on an empty string is false, so the
empty list is returned unchanged. -/
def sanitiseChars (cs : List Char) : List Char :=
  match (cs.map lowerChar).map replaceChar with
  | [] => []
  | c :: rest => if isLowerAlpha c then c :: rest else 'p' :: '_' :: c :: rest

/-- The sanitise helper lifted to strings. -/
def sanitise (s : String) : String :=
  ⟨sanitiseChars s.data⟩

/-- The identifier pattern of the specification invariant, anchored on both
sides: one lowercase letter followed by characters from [a-z0-9_]. -/
def matchesIdent (s : String) : Bool :=
  match s.data with
  | [] => false
  | c :: rest => isLowerAlpha c && rest.all isKeepChar

/-- The HubSpot-type to BigQuery-type mapping of the Schema Mapper. -/
def hub2bq (t : String) : String :=
  if t = "string" then "STRING"
  else if t = "number" then "FLOAT"
  else if t = "datetime" then "TIMESTAMP"
  else if t = "date" then "DATE"
  else if t = "bool" then "BOOLEAN"
  else "STRING"

/- ===== basic facts about the sanitise character passes ===== -/

theorem lowerChar_of_keep {c : Char} (h : isKeepChar c = true) : lowerChar c = c := by
  unfold isKeepChar at h
  unfold lowerChar
  simp only [Bool.or_eq_true, Bool.and_eq_true, decide_eq_true_eq, beq_iff_eq] at h
  have : ¬ (65 ≤ c.toNat ∧ c.toNat ≤ 90) := by omega
  simp only [Bool.and_eq_true, decide_eq_true_eq]
  split
  · omega
  · rfl

theorem replaceChar_of_keep {c : Char} (h : isKeepChar c = true) : replaceChar c = c := by
  unfold replaceChar
  simp [h]

theorem isKeepChar_replaceChar (c : Char) : isKeepChar (replaceChar c) = true := by
  unfold replaceChar
  split
  · assumption
  · decide

theorem isKeepChar_of_lowerAlpha {c : Char} (h : isLowerAlpha c = true) :
    isKeepChar c = true := by
  unfold isLowerAlpha at h
  unfold isKeepChar
  simp only [Bool.and_eq_true, decide_eq_true_eq] at h
  simp only [Bool.or_eq_true, Bool.and_eq_true, decide_eq_true_eq, beq_iff_eq]
  omega

theorem sanitiseChars_shape (cs : List Char) :
    sanitiseChars cs = [] ∨
    ∃ c rest, sanitiseChars cs = c :: rest ∧ isLowerAlpha c = true ∧
      ∀ d ∈ c :: rest, isKeepChar d = true := by
  have hall : ∀ d ∈ (cs.map lowerChar).map replaceChar, isKeepChar d = true := by
    intro d hd
    obtain ⟨e, _, rfl⟩ := List.mem_map.mp hd
    exact isKeepChar_replaceChar e
  cases hm : (cs.map lowerChar).map replaceChar with
  | nil =>
    left
    unfold sanitiseChars
    rw [hm]
  | cons a rest =>
    rw [hm] at hall
    right
    by_cases ha : isLowerAlpha a = true
    · refine ⟨a, rest, ?_, ha, hall⟩
      unfold sanitiseChars
      rw [hm]
      simp [ha]
    · refine ⟨'p', '_' :: a :: rest, ?_, by decide, ?_⟩
      · unfold sanitiseChars
        rw [hm]
        simp [ha]
      · intro d hd
        simp only [List.mem_cons] at hd
        rcases hd with rfl | rfl | hd
        · decide
        · decide
        · exact hall d (List.mem_cons.mpr hd)

theorem all_keep_sanitiseChars (cs : List Char) :
    ∀ c ∈ sanitiseChars cs, isKeepChar c = true := by
  rcases sanitiseChars_shape cs with h | ⟨c, rest, h, _, hk⟩
  · rw [h]; intro c hc; simp at hc
  · rw [h]; exact hk

theorem sanitiseChars_ne_nil {cs : List Char} (h : cs ≠ []) :
    sanitiseChars cs ≠ [] := by
  unfold sanitiseChars
  cases hm : (cs.map lowerChar).map replaceChar with
  | nil =>
    exfalso
    apply h
    have := congrArg List.length hm
    simpa using this
  | cons a rest =>
    show (if isLowerAlpha a = true then a :: rest else 'p' :: '_' :: a :: rest) ≠ []
    split <;> simp

theorem map_lower_of_keep {l : List Char} (h : ∀ c ∈ l, isKeepChar c = true) :
    l.map lowerChar = l := by
  induction l with
  | nil => rfl
  | cons a t ih =>
    simp only [List.map_cons]
    rw [lowerChar_of_keep (h a (by simp)), ih (fun c hc => h c (by simp [hc]))]

theorem map_replace_of_keep {l : List Char} (h : ∀ c ∈ l, isKeepChar c = true) :
    l.map replaceChar = l := by
  induction l with
  | nil => rfl
  | cons a t ih =>
    simp only [List.map_cons]
    rw [replaceChar_of_keep (h a (by simp)), ih (fun c hc => h c (by simp [hc]))]

theorem sanitiseChars_idem (cs : List Char) :
    sanitiseChars (sanitiseChars cs) = sanitiseChars cs := by
  rcases sanitiseChars_shape cs with h | ⟨c, rest, h, hc, hk⟩
  · rw [h]; rfl
  · rw [h]
    unfold sanitiseChars
    rw [map_lower_of_keep hk, map_replace_of_keep hk]
    simp [hc]

/-- C4 as stated is refuted by the empty property name: sanitise leaves the
empty string unchanged, and the empty string does not match the identifier
pattern of one lowercase letter followed by [a-z0-9_] characters. -/
theorem c4_counterexample_empty_name :
    sanitise "" = "" ∧ matchesIdent (sanitise "") = false := by
  constructor <;> rfl

/-- C4 amended: sanitisation is idempotent for every property-name string,
and for every nonempty property name the sanitised result matches the
identifier pattern.  The empty string is the single exception: it is
returned unchanged and matches nothing. -/
theorem c4_sanitise_idempotent_and_shaped (s : String) :
    sanitise (sanitise s) = sanitise s ∧
    (s ≠ "" → matchesIdent (sanitise s) = true) := by
  constructor
  · show (⟨sanitiseChars (sanitiseChars s.data)⟩ : String) = ⟨sanitiseChars s.data⟩
    rw [sanitiseChars_idem]
  · intro hs
    have hdata : s.data ≠ [] := by
      intro h
      apply hs
      cases s with
      | mk l =>
        simp only at h
        subst h
        decide
    rcases sanitiseChars_shape s.data with h0 | ⟨c, rest, h0, hc, hk⟩
    · exact absurd h0 (sanitiseChars_ne_nil hdata)
    · show (match (⟨sanitiseChars s.data⟩ : String).data with
        | [] => false
        | c :: rest => isLowerAlpha c && rest.all isKeepChar) = true
      simp only
      rw [h0]
      simp only [Bool.and_eq_true]
      refine ⟨hc, List.all_eq_true.mpr ?_⟩
      intro d hd
      exact hk d (by simp [hd])

/-- C4 witness: the amended theorem applied to a concrete degenerate name
that starts with a digit and holds a space. -/
theorem c4_witness_concrete :
    matchesIdent (sanitise "123 name") = true :=
  (c4_sanitise_idempotent_and_shaped "123 name").2 (by decide)

/- ===================================================================
   Schema construction (src/index.js lines 143-151)

   const schema = [
     { name: id, type: STRING, mode: REQUIRED },
     ...props.map(p => ({ name: sanitise(p.name), type: hub2bq(p.type),
                          mode: NULLABLE }))
   ];
   =================================================================== -/

/-- One entry of the HubSpot property catalogue: a name and a declared
type string. -/
structure HubProperty where
  name : String
  type : String
deriving DecidableEq, Repr

/-- One BigQuery schema field as built by the pipeline. -/
structure BqField where
  name : String
  type : String
  mode : String
deriving DecidableEq, Repr

/-- The schema derived from the property catalogue: the injected required
id column followed by one sanitised nullable column per source property. -/
def buildSchema (props : List HubProperty) : List BqField :=
  ⟨"id", "STRING", "REQUIRED"⟩ ::
    props.map (fun p => ⟨sanitise p.name, hub2bq p.type, "NULLABLE"⟩)

/-- C6 as stated is refuted by concrete catalogues: the names a b and a_b
both sanitise to a_b, giving two identical column names, and the name ID
sanitises to id, colliding with the injected id column. -/
theorem c6_counterexample_collisions :
    ¬ ((buildSchema [⟨"a b", "string"⟩, ⟨"a_b", "string"⟩]).map (fun f => f.name)).Nodup ∧
    sanitise "ID" = "id" ∧
    ¬ ((buildSchema [⟨"ID", "string"⟩]).map (fun f => f.name)).Nodup := by
  refine ⟨?_, ?_, ?_⟩ <;> decide

/-- C6 amended: the derived ColumnSpec list has pairwise-distinct column
names provided the sanitised property names are themselves pairwise
distinct and none of them is the reserved name id.  The code performs no
deduplication, so these side conditions are genuine: distinct source names
can sanitise to the same column name, and a source name can sanitise to
id. -/
theorem c6_schema_names_nodup (props : List HubProperty)
    (hinj : (props.map (fun p => sanitise p.name)).Nodup)
    (hid : ∀ p ∈ props, sanitise p.name ≠ "id") :
    ((buildSchema props).map (fun f => f.name)).Nodup := by
  unfold buildSchema
  simp only [List.map_cons, List.map_map]
  rw [List.nodup_cons]
  constructor
  · intro hmem
    simp only [List.mem_map, Function.comp] at hmem
    obtain ⟨p, hp, hname⟩ := hmem
    exact hid p hp hname
  · have : ((fun f : BqField => f.name) ∘ fun p : HubProperty =>
        (⟨sanitise p.name, hub2bq p.type, "NULLABLE"⟩ : BqField)) =
        fun p : HubProperty => sanitise p.name := by
      funext p
      rfl
    rw [this]
    exact hinj

/-- C6 witness: the amended theorem applied to a concrete two-property
catalogue with distinct sanitised names, none equal to id. -/
theorem c6_witness_concrete :
    ((buildSchema [⟨"email", "string"⟩, ⟨"First Name", "string"⟩]).map
      (fun f => f.name)).Nodup :=
  c6_schema_names_nodup [⟨"email", "string"⟩, ⟨"First Name", "string"⟩]
    (by decide) (by decide)

/- ===================================================================
   Schema Evolver (src/index.js lines 93-111, src/unnamed/part_001 93-116)

   async function ensureTable(schema){
     ... if (!exists){ await ds.createTable(..., {schema:{fields:schema}}); return tb; }
     const have = new Set(meta.schema.fields.map(f => f.name));
     const add  = schema.filter(f => !have.has(f.name));
     if (add.length){ meta.schema.fields.push(...add); await tb.setMetadata(...); }
   }

   The table state is the field list of an existing table, or none when
   the table does not exist yet.
   =================================================================== -/

/-- One Schema Evolver call on the table state: create the table with
exactly the given schema when it does not exist, otherwise append the
schema entries whose names are not already present. -/
def ensureTable (state : Option (List BqField)) (schema : List BqField) :
    Option (List BqField) :=
  match state with
  | none => some schema
  | some fields =>
      some (fields ++ schema.filter (fun f => !(fields.map (fun g => g.name)).contains f.name))

/-- A sequence of Schema Evolver calls, applied in order. -/
def ensureTableFold (state : Option (List BqField)) (calls : List (List BqField)) :
    Option (List BqField) :=
  calls.foldl ensureTable state

/-- The field list of a table state; a missing table has no fields. -/
def tableFields : Option (List BqField) → List BqField
  | none => []
  | some fs => fs

/-- The column-name list of a table state. -/
def tableNames (state : Option (List BqField)) : List String :=
  (tableFields state).map (fun f => f.name)

theorem ensureTable_preserves (state : Option (List BqField)) (schema : List BqField) :
    ∀ f ∈ tableFields state, f ∈ tableFields (ensureTable state schema) := by
  intro f hf
  cases state with
  | none => simp [tableFields] at hf
  | some fields =>
    simp only [ensureTable, tableFields] at hf ⊢
    exact List.mem_append_left _ hf

theorem ensureTable_covers (state : Option (List BqField)) (schema : List BqField) :
    ∀ f ∈ schema, f.name ∈ tableNames (ensureTable state schema) := by
  intro f hf
  cases state with
  | none =>
    simp only [ensureTable, tableNames, tableFields]
    exact List.mem_map.mpr ⟨f, hf, rfl⟩
  | some fields =>
    simp only [ensureTable, tableNames, tableFields, List.map_append]
    by_cases hmem : f.name ∈ fields.map (fun g => g.name)
    · exact List.mem_append_left _ hmem
    · refine List.mem_append_right _ ?_
      refine List.mem_map.mpr ⟨f, ?_, rfl⟩
      refine List.mem_filter.mpr ⟨hf, ?_⟩
      simp only [Bool.not_eq_eq_eq_not, Bool.not_true]
      simpa using hmem

theorem ensureTableFold_preserves (calls : List (List BqField))
    (state : Option (List BqField)) :
    ∀ f ∈ tableFields state, f ∈ tableFields (ensureTableFold state calls) := by
  induction calls generalizing state with
  | nil => intro f hf; exact hf
  | cons c cs ih =>
    intro f hf
    exact ih (ensureTable state c) f (ensureTable_preserves state c f hf)

theorem ensureTableFold_name_preserves (calls : List (List BqField))
    (state : Option (List BqField)) :
    ∀ n ∈ tableNames state, n ∈ tableNames (ensureTableFold state calls) := by
  intro n hn
  obtain ⟨f, hf, rfl⟩ := List.mem_map.mp hn
  exact List.mem_map.mpr
    ⟨f, ensureTableFold_preserves calls state f hf, rfl⟩

theorem ensureTableFold_covers (calls : List (List BqField))
    (state : Option (List BqField)) :
    ∀ spec ∈ calls, ∀ f ∈ spec, f.name ∈ tableNames (ensureTableFold state calls) := by
  induction calls generalizing state with
  | nil => intro spec hspec; simp at hspec
  | cons c cs ih =>
    intro spec hspec f hf
    rcases List.mem_cons.mp hspec with rfl | hspec
    · exact ensureTableFold_name_preserves cs (ensureTable state spec) _
        (ensureTable_covers state spec f hf)
    · exact ih (ensureTable state c) spec hspec f hf

/-- C5: after any sequence of Schema Evolver calls from any starting table
state, (1) every field of every ColumnSpec list passed has its name in the
final column set, (2) every field present at the start, with its original
name and type, is still present at the end (no column is ever removed or
retyped, and the column set grows monotonically), and (3) a call on an
existing table appends exactly the given columns whose names are not
already present. -/
theorem c5_schema_superset_invariant (state : Option (List BqField))
    (calls : List (List BqField)) :
    (∀ spec ∈ calls, ∀ f ∈ spec, f.name ∈ tableNames (ensureTableFold state calls)) ∧
    (∀ f ∈ tableFields state, f ∈ tableFields (ensureTableFold state calls)) ∧
    (∀ fields spec, ensureTable (some fields) spec =
      some (fields ++ spec.filter
        (fun f => !(fields.map (fun g => g.name)).contains f.name))) :=
  ⟨ensureTableFold_covers calls state,
   ensureTableFold_preserves calls state,
   fun _ _ => rfl⟩

/-- C5 witness: the invariant theorem applied to a concrete two-call
history starting from a missing table, with all hypotheses discharged on
concrete data. -/
theorem c5_witness_concrete :
    ("email" : String) ∈ tableNames (ensureTableFold none
      [[⟨"id", "STRING", "REQUIRED"⟩], [⟨"id", "STRING", "REQUIRED"⟩,
        ⟨"email", "STRING", "NULLABLE"⟩]]) ∧
    (⟨"id", "STRING", "REQUIRED"⟩ : BqField) ∈ tableFields (ensureTableFold
      (some [⟨"id", "STRING", "REQUIRED"⟩]) [[⟨"email", "STRING", "NULLABLE"⟩]]) :=
  ⟨(c5_schema_superset_invariant none _).1
      [⟨"id", "STRING", "REQUIRED"⟩, ⟨"email", "STRING", "NULLABLE"⟩]
      (by decide) ⟨"email", "STRING", "NULLABLE"⟩ (by decide),
   (c5_schema_superset_invariant (some [⟨"id", "STRING", "REQUIRED"⟩]) _).2.1
      ⟨"id", "STRING", "REQUIRED"⟩ (by decide)⟩

/- ===================================================================
   Stage-and-Merge Loader (src/index.js lines 428-442, part_003 123-137)

   MERGE Contacts T USING Contacts_stage S
   ON T.id = S.id
   WHEN MATCHED THEN UPDATE SET T.col = S.col  (every non-id column)
   WHEN NOT MATCHED THEN INSERT (cols) VALUES (cols);

   A row is its id plus the values of the non-key columns of the run
   schema.  A matched master row receives every non-key column from the
   matching staged row; an unmatched staged row is inserted.
   =================================================================== -/

/-- A table row: the primary id and the values of the non-key columns of
the schema in schema order (a missing value is none). -/
structure StageRow where
  id : String
  vals : List (Option String)
deriving DecidableEq, Repr

/-- The WHEN MATCHED branch of the MERGE: a master row is updated from the
first staged row with the same id, setting every non-key column; with no
match it is unchanged. -/
def updateFromStage (stage : List StageRow) (t : StageRow) : StageRow :=
  match stage.find? (fun s => s.id == t.id) with
  | some s => { id := t.id, vals := s.vals }
  | none => t

/-- The full MERGE statement: update every matched master row from staging
and insert every staged row whose id matches no master row. -/
def mergeStageIntoMaster (master stage : List StageRow) : List StageRow :=
  master.map (updateFromStage stage) ++
    stage.filter (fun s => master.all (fun t => !(t.id == s.id)))

theorem updateFromStage_id (stage : List StageRow) (t : StageRow) :
    (updateFromStage stage t).id = t.id := by
  unfold updateFromStage
  cases h : stage.find? (fun s => s.id == t.id) <;> rfl

theorem find?_eq_of_mem_nodup {stage : List StageRow} {s : StageRow}
    (hnd : (stage.map (fun r => r.id)).Nodup) (hs : s ∈ stage) :
    stage.find? (fun x => x.id == s.id) = some s := by
  induction stage with
  | nil => simp at hs
  | cons h tl ih =>
    simp only [List.map_cons, List.nodup_cons] at hnd
    rcases List.mem_cons.mp hs with rfl | hs
    · simp [List.find?]
    · have hne : (h.id == s.id) = false := by
        simp only [beq_eq_false_iff_ne, ne_eq]
        intro heq
        exact hnd.1 (heq ▸ List.mem_map.mpr ⟨s, hs, rfl⟩)
      simp only [List.find?, hne]
      exact ih hnd.2 hs

theorem updateFromStage_of_mem {stage : List StageRow} {s : StageRow}
    (hnd : (stage.map (fun r => r.id)).Nodup) (hs : s ∈ stage) :
    updateFromStage stage s = s := by
  unfold updateFromStage
  rw [find?_eq_of_mem_nodup hnd hs]

theorem updateFromStage_idem (stage : List StageRow) (t : StageRow) :
    updateFromStage stage (updateFromStage stage t) = updateFromStage stage t := by
  unfold updateFromStage
  cases h : stage.find? (fun s => s.id == t.id) with
  | none => simp [h]
  | some s =>
    have : stage.find? (fun x => x.id == ({ id := t.id, vals := s.vals } : StageRow).id) =
        some s := h
    simp [this]

theorem merge_id_cover (master stage : List StageRow) :
    ∀ s ∈ stage, ∃ r ∈ mergeStageIntoMaster master stage, r.id = s.id := by
  intro s hs
  by_cases hx : ∃ t ∈ master, t.id = s.id
  · obtain ⟨t, ht, hid⟩ := hx
    refine ⟨updateFromStage stage t, ?_, ?_⟩
    · exact List.mem_append_left _ (List.mem_map.mpr ⟨t, ht, rfl⟩)
    · rw [updateFromStage_id]; exact hid
  · refine ⟨s, ?_, rfl⟩
    refine List.mem_append_right _ ?_
    refine List.mem_filter.mpr ⟨hs, ?_⟩
    rw [List.all_eq_true]
    intro t ht
    simp only [Bool.not_eq_eq_eq_not, Bool.not_true, beq_eq_false_iff_ne, ne_eq]
    intro heq
    exact hx ⟨t, ht, heq⟩

theorem merge_second_filter_nil {L stage : List StageRow}
    (hcov : ∀ s ∈ stage, ∃ r ∈ L, r.id = s.id) :
    stage.filter (fun s => L.all (fun t => !(t.id == s.id))) = [] := by
  rw [List.filter_eq_nil_iff]
  intro s hs
  obtain ⟨r, hr, hid⟩ := hcov s hs
  simp only [List.all_eq_true, Bool.not_eq_eq_eq_not, Bool.not_true,
    beq_eq_false_iff_ne, ne_eq, not_forall]
  exact ⟨r, hr, by simp [hid]⟩

theorem merge_map_fix {master stage : List StageRow}
    (hnd : (stage.map (fun r => r.id)).Nodup) :
    (mergeStageIntoMaster master stage).map (updateFromStage stage) =
      mergeStageIntoMaster master stage := by
  unfold mergeStageIntoMaster
  rw [List.map_append]
  congr 1
  · rw [List.map_map]
    apply List.map_congr_left
    intro t _
    exact updateFromStage_idem stage t
  · conv_rhs => rw [← List.map_id
      (stage.filter (fun s => master.all (fun t => !(t.id == s.id))))]
    apply List.map_congr_left
    intro s hsf
    exact updateFromStage_of_mem hnd (List.mem_of_mem_filter hsf)

theorem mergeStageIntoMaster_idem (master stage : List StageRow)
    (hnd : (stage.map (fun r => r.id)).Nodup) :
    mergeStageIntoMaster (mergeStageIntoMaster master stage) stage =
      mergeStageIntoMaster master stage := by
  show (mergeStageIntoMaster master stage).map (updateFromStage stage) ++
      stage.filter (fun s =>
        (mergeStageIntoMaster master stage).all (fun t => !(t.id == s.id))) =
    mergeStageIntoMaster master stage
  rw [merge_second_filter_nil (merge_id_cover master stage), List.append_nil]
  exact merge_map_fix hnd

theorem mergeStageIntoMaster_nodup (master stage : List StageRow)
    (hm : (master.map (fun r => r.id)).Nodup)
    (hs : (stage.map (fun r => r.id)).Nodup) :
    ((mergeStageIntoMaster master stage).map (fun r => r.id)).Nodup := by
  unfold mergeStageIntoMaster
  rw [List.map_append, List.nodup_append]
  refine ⟨?_, ?_, ?_⟩
  · rw [List.map_map]
    have : ((fun r : StageRow => r.id) ∘ updateFromStage stage) =
        fun t : StageRow => t.id := by
      funext t
      exact updateFromStage_id stage t
    rw [this]
    exact hm
  · exact List.Nodup.sublist (List.Sublist.map _ (List.filter_sublist stage)) hs
  · intro a ha hb
    rw [List.map_map] at ha
    obtain ⟨t, ht, rfl⟩ := List.mem_map.mp ha
    obtain ⟨x, hxf, hxid⟩ := List.mem_map.mp hb
    have hxs := List.mem_filter.mp hxf
    have hall := List.all_eq_true.mp hxs.2 t ht
    simp only [Bool.not_eq_eq_eq_not, Bool.not_true, beq_eq_false_iff_ne, ne_eq] at hall
    apply hall
    have : ((fun r : StageRow => r.id) ∘ updateFromStage stage) t = t.id :=
      updateFromStage_id stage t
    rw [this] at hxid
    exact hxid.symm

/-- C2: with pairwise-distinct ids in the staged rows (they are built from
an object keyed by id) and in the prior master state, applying the MERGE
twice with the same staged rows equals applying it once, the resulting
master has no duplicate ids, and loading the single record with id 1 and
email a@x.com twice leaves exactly one row with id 1. -/
theorem c2_upsert_convergence (master stage : List StageRow)
    (hm : (master.map (fun r => r.id)).Nodup)
    (hs : (stage.map (fun r => r.id)).Nodup) :
    mergeStageIntoMaster (mergeStageIntoMaster master stage) stage =
      mergeStageIntoMaster master stage ∧
    ((mergeStageIntoMaster master stage).map (fun r => r.id)).Nodup ∧
    (mergeStageIntoMaster (mergeStageIntoMaster [] [⟨"1", [some "a@x.com"]⟩])
        [⟨"1", [some "a@x.com"]⟩] = [⟨"1", [some "a@x.com"]⟩] ∧
      ((mergeStageIntoMaster (mergeStageIntoMaster [] [⟨"1", [some "a@x.com"]⟩])
        [⟨"1", [some "a@x.com"]⟩]).filter (fun r => r.id == "1")).length = 1) :=
  ⟨mergeStageIntoMaster_idem master stage hs,
   mergeStageIntoMaster_nodup master stage hm hs,
   by decide, by decide⟩

/-- C2 witness: the convergence theorem applied to a concrete master and
stage, with the no-duplicate-id hypotheses discharged on concrete rows. -/
theorem c2_witness_concrete :
    mergeStageIntoMaster (mergeStageIntoMaster [⟨"2", [none]⟩] [⟨"1", [some "a@x.com"]⟩])
        [⟨"1", [some "a@x.com"]⟩] =
      mergeStageIntoMaster [⟨"2", [none]⟩] [⟨"1", [some "a@x.com"]⟩] :=
  (c2_upsert_convergence [⟨"2", [none]⟩] [⟨"1", [some "a@x.com"]⟩]
    (by decide) (by decide)).1

/- ===================================================================
   Decimal rendering and parsing.

   The code passes the watermark to the source API as since.toString(),
   the decimal rendering of an integer millisecond timestamp.  The
   rendering below embeds that, and the parser is the numeric reading the
   endpoint applies to the filter value.
   =================================================================== -/

/-- The decimal digit character for a value below ten. -/
def digitChar (m : Nat) : Char :=
  if m = 0 then '0' else if m = 1 then '1' else if m = 2 then '2'
  else if m = 3 then '3' else if m = 4 then '4' else if m = 5 then '5'
  else if m = 6 then '6' else if m = 7 then '7' else if m = 8 then '8' else '9'

/-- Decimal digits of a natural number, most significant first; the fuel
argument bounds the recursion depth. -/
def natDecAux : Nat → Nat → List Char
  | 0, _ => []
  | fuel + 1, n =>
    if n < 10 then [digitChar n]
    else natDecAux fuel (n / 10) ++ [digitChar (n % 10)]

/-- Decimal rendering of a natural number. -/
def natToDecChars (n : Nat) : List Char :=
  natDecAux (n + 1) n

/-- Decimal rendering of an integer, the embedding of the JS toString
call on an integral number. -/
def intToDecString (i : Int) : String :=
  if i < 0 then ⟨'-' :: natToDecChars i.natAbs⟩ else ⟨natToDecChars i.natAbs⟩

/-- Decimal digit test by code point. -/
def isDigitC (c : Char) : Bool :=
  48 ≤ c.toNat && c.toNat ≤ 57

/-- Accumulating decimal reader: consumes digit characters, fails on any
other character. -/
def parseNatAux : Nat → List Char → Option Nat
  | acc, [] => some acc
  | acc, c :: cs => if isDigitC c then parseNatAux (acc * 10 + (c.toNat - 48)) cs else none

/-- Decimal reading of a nonempty all-digit character list. -/
def parseNatChars : List Char → Option Nat
  | [] => none
  | c :: cs => parseNatAux 0 (c :: cs)

/-- Decimal reading of an optionally negated integer literal. -/
def parseDecInt (cs : List Char) : Option Int :=
  match cs with
  | [] => none
  | c :: rest =>
    if c = '-' then (parseNatChars rest).map (fun n => -(n : Int))
    else (parseNatChars (c :: rest)).map (fun n => (n : Int))

theorem isDigitC_digitChar (m : Nat) : isDigitC (digitChar m) = true := by
  unfold digitChar
  repeat' split
  all_goals decide

theorem parseNatAux_append (xs ys : List Char) (acc : Nat) :
    parseNatAux acc (xs ++ ys) =
      match parseNatAux acc xs with
      | some m => parseNatAux m ys
      | none => none := by
  induction xs generalizing acc with
  | nil => rfl
  | cons c cs ih =>
    simp only [List.cons_append, parseNatAux]
    by_cases hc : isDigitC c = true
    · rw [if_pos hc, if_pos hc, show cs.append ys = cs ++ ys from rfl, ih]
    · rw [if_neg hc, if_neg hc]

theorem parseNatAux_digitChar (m : Nat) (hm : m < 10) (acc : Nat) :
    parseNatAux acc [digitChar m] = some (acc * 10 + m) := by
  interval_cases m <;> simp [parseNatAux, digitChar, isDigitC]

theorem parseNatAux_natDecAux (fuel : Nat) :
    ∀ n, n < fuel → ∀ acc,
      parseNatAux acc (natDecAux fuel n) =
        some (acc * 10 ^ (natDecAux fuel n).length + n) := by
  induction fuel with
  | zero => intro n hn; omega
  | succ fuel ih =>
    intro n hn acc
    by_cases h10 : n < 10
    · unfold natDecAux
      rw [if_pos h10]
      rw [parseNatAux_digitChar n h10]
      simp
    · unfold natDecAux
      rw [if_neg h10]
      have hdiv : n / 10 < fuel := by
        have h1 : n / 10 < n := Nat.div_lt_self (by omega) (by norm_num)
        omega
      rw [parseNatAux_append]
      rw [ih (n / 10) hdiv acc]
      show parseNatAux (acc * 10 ^ (natDecAux fuel (n / 10)).length + n / 10)
          [digitChar (n % 10)] =
        some (acc * 10 ^ (natDecAux fuel (n / 10) ++ [digitChar (n % 10)]).length + n)
      rw [parseNatAux_digitChar (n % 10) (Nat.mod_lt n (by norm_num))]
      rw [List.length_append]
      simp only [List.length_singleton]
      congr 1
      have hpow : 10 ^ ((natDecAux fuel (n / 10)).length + 1) =
          10 ^ (natDecAux fuel (n / 10)).length * 10 := by
        rw [pow_succ]
      rw [hpow]
      have hdm : n / 10 * 10 + n % 10 = n := by
        have := Nat.div_add_mod n 10
        omega
      generalize (10 : Nat) ^ (natDecAux fuel (n / 10)).length = K
      have : (acc * K + n / 10) * 10 + n % 10 = acc * (K * 10) + (n / 10 * 10 + n % 10) := by
        ring
      rw [this, hdm]

theorem natDecAux_ne_nil (fuel n : Nat) (h : 0 < fuel) : natDecAux fuel n ≠ [] := by
  cases fuel with
  | zero => omega
  | succ fuel =>
    unfold natDecAux
    split
    · simp
    · simp

theorem natDecAux_all_digits (fuel : Nat) :
    ∀ n, ∀ c ∈ natDecAux fuel n, isDigitC c = true := by
  induction fuel with
  | zero => intro n c hc; simp [natDecAux] at hc
  | succ fuel ih =>
    intro n c hc
    unfold natDecAux at hc
    split at hc
    · rcases List.mem_singleton.mp hc with rfl
      exact isDigitC_digitChar n
    · rcases List.mem_append.mp hc with hc | hc
      · exact ih (n / 10) c hc
      · rcases List.mem_singleton.mp hc with rfl
        exact isDigitC_digitChar (n % 10)

theorem parseNatChars_natToDecChars (n : Nat) :
    parseNatChars (natToDecChars n) = some n := by
  have hne : natToDecChars n ≠ [] := natDecAux_ne_nil (n + 1) n (by omega)
  have hmain := parseNatAux_natDecAux (n + 1) n (by omega) 0
  cases hcs : natToDecChars n with
  | nil => exact absurd hcs hne
  | cons c cs =>
    unfold natToDecChars at hcs
    rw [hcs] at hmain
    show parseNatAux 0 (c :: cs) = some n
    rw [hmain]
    simp

theorem parseDecInt_intToDecString (i : Int) :
    parseDecInt (intToDecString i).data = some i := by
  unfold intToDecString
  by_cases hneg : i < 0
  · rw [if_pos hneg]
    show parseDecInt ('-' :: natToDecChars i.natAbs) = some i
    have hred : parseDecInt ('-' :: natToDecChars i.natAbs) =
        (parseNatChars (natToDecChars i.natAbs)).map (fun n => -(n : Int)) := rfl
    rw [hred, parseNatChars_natToDecChars]
    show some (-(i.natAbs : Int)) = some i
    congr 1
    omega
  · rw [if_neg hneg]
    show parseDecInt (natToDecChars i.natAbs) = some i
    have hne : natToDecChars i.natAbs ≠ [] := natDecAux_ne_nil _ _ (by omega)
    cases hcs : natToDecChars i.natAbs with
    | nil => exact absurd hcs hne
    | cons c cs =>
      have hcd : isDigitC c = true := by
        apply natDecAux_all_digits (i.natAbs + 1) i.natAbs
        rw [show natDecAux (i.natAbs + 1) i.natAbs = natToDecChars i.natAbs from rfl, hcs]
        simp
      have hcne : ¬ (c = '-') := by
        intro h
        subst h
        exact absurd hcd (by decide)
      have hred : parseDecInt (c :: cs) =
          if c = '-' then (parseNatChars cs).map (fun n => -(n : Int))
          else (parseNatChars (c :: cs)).map (fun n => (n : Int)) := rfl
      rw [hred, if_neg hcne, ← hcs, parseNatChars_natToDecChars]
      show some ((i.natAbs : Int)) = some i
      congr 1
      omega

/- ===================================================================
   Incremental Extractor filter (src/index.js lines 61-90, part_005 68-77)

   const since = await lastSync();
   if (since) {
     params.filterGroups = [{ filters: [{
       propertyName: hs_lastmodifieddate, operator: GT,
       value: since.toString() }] }];
   }

   A JS number is falsy exactly when it is zero (or NaN), so the filter is
   attached only for a nonzero watermark.
   =================================================================== -/

/-- One filter of a filterGroups entry as the code builds it. -/
structure HubSearchFilter where
  propertyName : String
  operator : String
  value : String
deriving DecidableEq, Repr

/-- The filter attached to the contact sweep: present only when the
watermark is nonzero (a zero watermark is falsy in JS and the guard
drops the filter entirely). -/
def buildLastModifiedFilter (since : Int) : Option HubSearchFilter :=
  if since = 0 then none
  else some ⟨"hs_lastmodifieddate", "GT", intToDecString since⟩

/-- Modelled from the spec: the object-listing endpoint applies operator
GT by comparing the last-modified millisecond value of a record with the
numeric reading of the filter value string, returning only records that
compare strictly greater; with no filter every record is returned.  The
endpoint itself is an external collaborator, specified at the interface
boundary. -/
def filterAdmits (f : HubSearchFilter) (lastmodMs : Int) : Bool :=
  if f.operator = "GT" then
    match parseDecInt f.value.data with
    | some t => decide (lastmodMs > t)
    | none => false
  else true

/-- Whether a record with the given last-modified millisecond value is
returned by the sweep issued for the given watermark. -/
def sweepIncludes (since lastmodMs : Int) : Bool :=
  match buildLastModifiedFilter since with
  | none => true
  | some f => filterAdmits f lastmodMs

/-- C3 as stated is refuted at the zero watermark: with lastSyncTimestamp
equal to zero the guard drops the filter, and a record whose last-modified
value is zero, hence not greater than the watermark, is still included. -/
theorem c3_counterexample_zero_watermark :
    buildLastModifiedFilter 0 = none ∧ sweepIncludes 0 0 = true ∧ ¬ ((0 : Int) > 0) := by
  refine ⟨rfl, rfl, by omega⟩

/-- C3 amended: for every nonzero watermark T the sweep carries exactly
one filter, on hs_lastmodifieddate with operator GT and the decimal
rendering of T as its value, and a record is included exactly when its
last-modified millisecond value is strictly greater than T; records at or
below T, including one exactly at T, are excluded.  When T is zero the
code omits the filter and every record is included. -/
theorem c3_strict_window (T L : Int) (hT : T ≠ 0) :
    buildLastModifiedFilter T =
      some ⟨"hs_lastmodifieddate", "GT", intToDecString T⟩ ∧
    sweepIncludes T L = decide (L > T) := by
  constructor
  · unfold buildLastModifiedFilter
    rw [if_neg hT]
  · unfold sweepIncludes buildLastModifiedFilter
    rw [if_neg hT]
    show filterAdmits ⟨"hs_lastmodifieddate", "GT", intToDecString T⟩ L = decide (L > T)
    unfold filterAdmits
    rw [if_pos rfl]
    rw [parseDecInt_intToDecString]

/-- C3 witness: the amended theorem at a concrete millisecond watermark,
checking the boundary record at T is excluded and a record one
millisecond later is included. -/
theorem c3_witness_concrete :
    sweepIncludes 1747000000000 1747000000000 = false ∧
    sweepIncludes 1747000000000 1747000000001 = true := by
  have h1 := (c3_strict_window 1747000000000 1747000000000 (by omega)).2
  have h2 := (c3_strict_window 1747000000000 1747000000001 (by omega)).2
  rw [h1, h2]
  constructor <;> decide

/- ===================================================================
   Sync-State Tracker read (src/index.js lines 38-46)

   async function lastSync(){
     const [r] = await bq.query({ query: sql });
     return r.length
            ? new Date(r[0].last_sync_timestamp.value || r[0].last_sync_timestamp).getTime()
            : Date.now() - 30*24*60*60*1e3;    // 30 days ago
   }

   The stored cell is the timestamp string of the tracker row, or none
   when no row exists.  The JS date parse is abstracted as a function
   returning none for an Invalid Date, whose getTime() is NaN; a NaN
   result of lastSync is therefore modelled as none.
   =================================================================== -/

/-- Thirty days in milliseconds, the 30*24*60*60*1e3 of the fallback. -/
def thirtyDaysMs : Int := 30 * 24 * 60 * 60 * 1000

/-- The tracker read of src/index.js: with a row present the stored value
is parsed unconditionally and the parse result is returned as is (NaN,
that is none, included); only a missing row falls back to now minus
thirty days. -/
def lastSyncIndex (dateParse : String → Option Int) (stored : Option String)
    (nowMs : Int) : Option Int :=
  match stored with
  | some v => dateParse v
  | none => some (nowMs - thirtyDaysMs)

/-- C7 on the code of src/index.js: a missing row and a parseable row
behave as claimed, but a row whose stored value does not parse makes
lastSync return the invalid NaN timestamp instead of the claimed
now-minus-thirty-days fallback.  The claim holds of the variant tracker
in part_002, which guards the parse with an isNaN check; the shipped
index.js does not. -/
theorem c7_tracker_read_unparseable (dateParse : String → Option Int)
    (nowMs : Int) :
    (lastSyncIndex dateParse none nowMs = some (nowMs - thirtyDaysMs)) ∧
    (∀ v t, dateParse v = some t → lastSyncIndex dateParse (some v) nowMs = some t) ∧
    (∀ v, dateParse v = none →
      lastSyncIndex dateParse (some v) nowMs = none ∧
      lastSyncIndex dateParse (some v) nowMs ≠ some (nowMs - thirtyDaysMs)) := by
  refine ⟨rfl, fun v t hv => hv, fun v hv => ?_⟩
  show dateParse v = none ∧ dateParse v ≠ some (nowMs - thirtyDaysMs)
  rw [hv]
  exact ⟨rfl, by simp⟩

/-- C7 witness: the tracker-read theorem at a concrete parse function and
a stored value that does not parse as a date. -/
theorem c7_witness_concrete :
    lastSyncIndex (fun s => parseDecInt s.data) (some "garbage") 1000 = none :=
  ((c7_tracker_read_unparseable (fun s => parseDecInt s.data) 1000).2.2
    "garbage" (by decide)).1

/- ===================================================================
   Watermark capture and save order (src/index.js lines 61-90, 139-176,
   src/unnamed/part_002 lines 70-121)

   Inside fetchContacts: since = await lastSync(); now = Date.now();
   pagination loop; await saveSync(now); return rows.
   In main: fetchContacts, then row building, then ensureTable, then
   insertBatches.  The run is the ordered stage list below; a run that
   fails at a stage has executed exactly the stages before it.
   =================================================================== -/

/-- The stages of one sync run of src/index.js, in execution order. -/
inductive SyncStage
  | fetchProps
  | readLastSync
  | captureNow
  | extractPages
  | saveWatermark
  | buildRows
  | ensureTables
  | insertRows
deriving DecidableEq, Repr

/-- The execution order of the stages in src/index.js: the watermark save
happens at the end of fetchContacts, before row building, schema
evolution and the load. -/
def syncRunOrder : List SyncStage :=
  [.fetchProps, .readLastSync, .captureNow, .extractPages,
   .saveWatermark, .buildRows, .ensureTables, .insertRows]

/-- Position of a stage in the run. -/
def stagePos (s : SyncStage) : Nat :=
  (syncRunOrder.map (fun t => decide (t = s))).indexOf true

/-- The stored watermark after a run that fails on reaching the given
stage: the stages strictly before it have executed, so the watermark has
been overwritten exactly when the save stage lies before the failing
stage. -/
def watermarkAfterFailureAt (failStage : SyncStage) (oldW newW : Int) : Int :=
  if (syncRunOrder.takeWhile (fun s => decide (s ≠ failStage))).contains
      SyncStage.saveWatermark
  then newW else oldW

/-- C1 on the code: the watermark value is captured once before the first
extraction request, as claimed, but it is persisted at the end of
fetchContacts, before row building, schema evolution and the load; a run
that fails at the load stage (or at schema evolution or row building) has
therefore already overwritten the stored watermark, while the claim
requires it unchanged so that the next run re-extracts the window. -/
theorem c1_watermark_saved_before_load :
    stagePos .captureNow < stagePos .extractPages ∧
    stagePos .saveWatermark < stagePos .buildRows ∧
    stagePos .saveWatermark < stagePos .ensureTables ∧
    stagePos .saveWatermark < stagePos .insertRows ∧
    (∀ oldW newW : Int,
      watermarkAfterFailureAt .insertRows oldW newW = newW ∧
      watermarkAfterFailureAt .ensureTables oldW newW = newW ∧
      watermarkAfterFailureAt .buildRows oldW newW = newW ∧
      watermarkAfterFailureAt .extractPages oldW newW = oldW) := by
  refine ⟨by decide, by decide, by decide, by decide, fun oldW newW => ?_⟩
  refine ⟨?_, ?_, ?_, ?_⟩ <;> rfl

/- ===================================================================
   Deletion Reconciler (src/cleanup.js lines 8-36, src/unnamed/part_007)

   cleanup.js deletes WHERE id IN UNNEST(@ids) and then prints
   `Deleted ${ids.length} contacts`, the candidate count; part_007
   deletes WHERE id NOT IN (live ids) and reports
   metadata.statistics.query.dmlStats.deletedRowCount.

   The master table is its list of row ids; the Bool records whether a
   DELETE statement was issued at all.
   =================================================================== -/

/-- The archived-list cleanup of src/cleanup.js: with no candidate ids it
only logs and issues no statement; otherwise it deletes the master rows
whose id is among the candidates and reports the candidate count. -/
def deleteFromBQ (master : List String) (ids : List String) :
    List String × Bool × Nat :=
  if ids.length = 0 then (master, false, 0)
  else (master.filter (fun r => !(ids.contains r)), true, ids.length)

/-- The engine-reported affected-row count of the delete statement of
src/cleanup.js: the number of master rows the statement removes. -/
def engineDeletedCount (master : List String) (ids : List String) : Nat :=
  (master.filter (fun r => ids.contains r)).length

/-- The anti-join cleanup of src/unnamed/part_007: with no live ids it
warns and skips the delete; otherwise it deletes the master rows whose id
is not among the live ids. -/
def cleanupAntiJoin (master : List String) (liveIds : List String) :
    List String × Bool :=
  if liveIds.length = 0 then (master, false)
  else (master.filter (fun r => liveIds.contains r), true)

/-- C8 on the code of src/cleanup.js: with one candidate id that is
absent from the master table, the delete statement removes zero rows but
the reconciler reports one, so the reported count is the candidate count,
not the engine-reported affected-row count; the part_007 variant reads
dmlStats.deletedRowCount and is the behaviour the claim describes. -/
theorem c8_reported_count_is_candidate_count :
    deleteFromBQ ["2"] ["1"] = (["2"], true, 1) ∧
    engineDeletedCount ["2"] ["1"] = 0 ∧
    (deleteFromBQ ["2"] ["1"]).2.2 ≠ engineDeletedCount ["2"] ["1"] := by
  refine ⟨?_, ?_, ?_⟩ <;> decide

/-- C10: with an empty fetched id list neither strategy issues a delete
statement and the master table is returned unchanged. -/
theorem c10_empty_ids_no_delete (master : List String) :
    deleteFromBQ master [] = (master, false, 0) ∧
    cleanupAntiJoin master [] = (master, false) := by
  constructor <;> rfl

/- ===================================================================
   Row Transformer type coercion (src/unnamed/part_003 lines 157-179)

   if (v === '' || v == null) { r[col] = null; continue; }
   switch (typeMap[k]) {
     case 'number':
       const num = parseFloat(v);
       r[col] = isNaN(num) ? null : num;
       break;
     case 'bool':
       r[col] = (v === 'true' || v === true);
       break;
     default:
       r[col] = v;
   }

   A source value is a JSON string, boolean or null.  The numeric value
   of parseFloat is kept as the source string; only whether it is NaN
   matters to the claims, and that is decided by whether the string has a
   numeric prefix after optional whitespace and sign (digits, a dot
   followed by a digit, or an Infinity literal).
   =================================================================== -/

/-- A source field value as delivered by the API. -/
inductive HubValue
  | str (s : String)
  | boolean (b : Bool)
  | nullV
deriving DecidableEq, Repr

/-- A transformed row value. -/
inductive BqValue
  | str (s : String)
  | num (s : String)
  | boolean (b : Bool)
  | nullV
deriving DecidableEq, Repr

/-- JS whitespace skipped by parseFloat. -/
def isJsSpace (c : Char) : Bool :=
  c == ' ' || c == '\t' || c == '\n' || c == '\r'

/-- Whether parseFloat of the string evaluates to NaN: after optional
whitespace and an optional sign there must be a digit, a dot followed by
a digit, or an Infinity literal; otherwise no numeric prefix exists and
the result is NaN. -/
def jsParseFloatIsNaN (s : String) : Bool :=
  let cs := s.data.dropWhile isJsSpace
  let cs := match cs with
    | c :: rest => if c == '+' || c == '-' then rest else c :: rest
    | [] => []
  match cs with
  | [] => true
  | c :: rest =>
    !(isDigitC c || (c == '.' && (match rest with
        | d :: _ => isDigitC d
        | [] => false)) || List.isPrefixOf "Infinity".data (c :: rest))

/-- The empty-or-null normalisation guard of the transformer. -/
def isEmptyOrNull (v : HubValue) : Bool :=
  match v with
  | .nullV => true
  | .str s => s == ""
  | .boolean _ => false

/-- The pass-through branch of the switch. -/
def passThrough : HubValue → BqValue
  | .str s => .str s
  | .boolean b => .boolean b
  | .nullV => .nullV

/-- The per-field coercion of the Row Transformer: empty string and null
normalise to NULL; a number field keeps the value when parseFloat is not
NaN and becomes NULL otherwise (parseFloat of a boolean is NaN); a bool
field becomes the boolean of (v === true-string or v === true); any other
declared type passes the value through. -/
def coerceValue (ptype : String) (v : HubValue) : BqValue :=
  if isEmptyOrNull v then .nullV
  else if ptype = "number" then
    match v with
    | .str s => if jsParseFloatIsNaN s then .nullV else .num s
    | _ => .nullV
  else if ptype = "bool" then
    .boolean (match v with
      | .str s => s == "true"
      | .boolean b => b
      | .nullV => false)
  else passThrough v

/-- C9 as stated is refuted at concrete inputs: the bool coercion is not
case-insensitive (the string TRUE maps to the boolean false, not true)
and a non-boolean string maps to the boolean false, not to NULL. -/
theorem c9_counterexample_bool_coercion :
    coerceValue "bool" (.str "TRUE") = .boolean false ∧
    coerceValue "bool" (.str "TRUE") ≠ .boolean true ∧
    coerceValue "bool" (.str "yes") = .boolean false ∧
    coerceValue "bool" (.str "yes") ≠ .nullV := by
  refine ⟨?_, ?_, ?_, ?_⟩ <;> decide

/-- C9 amended: a bool field maps the literal true and the exact
lowercase string true to the boolean true, the literal false to false,
and every other nonempty string (TRUE and False included) to the boolean
false, never to NULL; a number field maps every nonempty string whose
parseFloat is NaN to NULL rather than failing, and empty or null values
of any type normalise to NULL. -/
theorem c9_bool_and_number_coercion :
    coerceValue "bool" (.str "true") = .boolean true ∧
    coerceValue "bool" (.boolean true) = .boolean true ∧
    coerceValue "bool" (.boolean false) = .boolean false ∧
    (∀ s, s ≠ "" → s ≠ "true" → coerceValue "bool" (.str s) = .boolean false) ∧
    (∀ s, s ≠ "" → jsParseFloatIsNaN s = true →
      coerceValue "number" (.str s) = .nullV) ∧
    (∀ t, coerceValue t (.str "") = .nullV ∧ coerceValue t .nullV = .nullV) := by
  refine ⟨by decide, by decide, by decide, ?_, ?_, ?_⟩
  · intro s hs hstrue
    unfold coerceValue
    rw [if_neg (by simp [isEmptyOrNull, hs])]
    rw [if_neg (by decide), if_pos rfl]
    simp [hstrue]
  · intro s hs hnan
    unfold coerceValue
    rw [if_neg (by simp [isEmptyOrNull, hs])]
    rw [if_pos rfl]
    simp [hnan]
  · intro t
    constructor
    · unfold coerceValue
      rw [if_pos (by decide)]
    · unfold coerceValue
      rw [if_pos (by decide)]

/-- C9 witness: the amended theorem at the concrete inputs False for a
bool field and a string with no numeric prefix for a number field. -/
theorem c9_witness_concrete :
    coerceValue "bool" (.str "False") = .boolean false ∧
    coerceValue "number" (.str "abc") = .nullV := by
  constructor
  · exact (c9_bool_and_number_coercion).2.2.2.1 "False" (by decide) (by decide)
  · exact (c9_bool_and_number_coercion).2.2.2.2.1 "abc" (by decide) (by decide)

end MdoElt
